import Mathlib

/-!
Shallow embedding of the book-mechanics validator (`BookValidator` in
`src/ts/views/loadGameView.ts`) of the kaichronicles repository, together
with proofs about its behaviour.

The validator walks a book's mechanics rule tree (XML elements) and
accumulates human-readable error strings.  External collaborators that are
not part of the source excerpt (the `Book`, `Mechanics` and `Section` data
classes, `randomMechanics.getCaseRuleBounds`, `mechanicsEngine.getArrayProperty`,
jQuery and the external XSD validator) are modelled from the specification;
every such definition is marked `Modelled from the spec`.
-/

namespace Kai

/-! ## XML / JavaScript value model -/

/-- An XML rule node: element name, attribute list and child elements.
Mirrors the DOM view the validator uses (`rule.nodeName`, `$rule.attr(...)`,
`$rule.children()`). -/
inductive RuleNode where
  | mk (nodeName : String) (attrs : List (String × String)) (children : List RuleNode)

/-- Element name of a rule node (DOM `nodeName`). -/
def RuleNode.nodeName : RuleNode → String
  | .mk n _ _ => n

/-- Attribute list of a rule node. -/
def RuleNode.attrs : RuleNode → List (String × String)
  | .mk _ a _ => a

/-- Child elements of a rule node (jQuery `.children()`). -/
def RuleNode.children : RuleNode → List RuleNode
  | .mk _ _ c => c

/-- jQuery `$rule.attr(name)`: the attribute value, or `none` (JS `undefined`)
when the attribute is absent. -/
def RuleNode.attr (rule : RuleNode) (name : String) : Option String :=
  List.lookup name rule.attrs

/-- JavaScript truthiness of an attribute read: `undefined` and the empty
string are falsy, every other string is truthy. -/
def jsTruthy : Option String → Bool
  | none => false
  | some s => s != ""

/-- JavaScript truthiness of a jQuery object (here represented by its list of
matched elements).  A jQuery object is a JS object, and every JS object is
truthy, regardless of how many elements it matched. -/
def jqTruthy (matched : List Unit) : Bool :=
  true

/-! ## External collaborators (modelled from the spec) -/

/-- Modelled from the spec: the view a `Section` object gives over one
section's XML content, which is external to the source excerpt.  It exposes
the "next section" navigation link, the `a[href=random]` links ("links to
random table") and the `idref` targets of the section's `choice` elements. -/
structure SectionXmlData where
  nextSectionId : String
  randomLinkCount : Nat
  choiceIdrefs : List String

/-- Modelled from the spec: the `Book` collaborator.  It owns section XML
content addressable by section id (`getSectionXml`), a table of valid
discipline ids (`getDisciplinesTable`) and a book number. -/
structure Book where
  bookNumber : Nat
  disciplines : List String
  sections : List (String × SectionXmlData)

/-- Modelled from the spec: the fixed initial-section id constant
`Book.INITIAL_SECTION`.  Its concrete value is irrelevant to the properties
proved here. -/
def Book.INITIAL_SECTION : String :=
  "sect1"

/-- Modelled from the spec: the `Mechanics` collaborator.  It exposes the
object-definitions table (`getObject`), the per-section rule subtree
(`getSection`), the terminal section id (`getLastSectionId`) and the raw
mechanics XML text used by schema validation. -/
structure Mechanics where
  objects : List String
  sections : List (String × RuleNode)
  lastSectionId : String
  mechanicsXmlText : Option String
  serializedXml : String

/-- Modelled from the spec: `mechanics.getObject(id)` returns an object
definition or null; the validator only uses its truthiness, so the model
returns whether the id resolves in the object table. -/
def Mechanics.getObject (m : Mechanics) (objectId : String) : Bool :=
  m.objects.contains objectId

/-- Modelled from the spec: `mechanics.getSection(id)` returns the section's
rule subtree, or null when the section has no mechanics. -/
def Mechanics.getSection (m : Mechanics) (sectionId : String) : Option RuleNode :=
  List.lookup sectionId m.sections

/-- Modelled from the spec: `mechanics.getLastSectionId()`. -/
def Mechanics.getLastSectionId (m : Mechanics) : String :=
  m.lastSectionId

/-- Modelled from the spec: the `Section` runtime view, computed from
`(book, sectionId, mechanics)`; it stores the section id and the section's
XML content. -/
structure BookSection where
  sectionId : String
  xml : SectionXmlData

/-- Modelled from the spec: `new Section(book, sectionId, mechanics)`. -/
def mkSection (b : Book) (sectionId : String) : BookSection :=
  { sectionId := sectionId
    xml := (List.lookup sectionId b.sections).getD ⟨"", 0, []⟩ }

/-- Modelled from the spec: `section.getNextSectionId()`. -/
def getNextSectionId (b : Book) (sectionId : String) : String :=
  (mkSection b sectionId).xml.nextSectionId

/-- The numeric value of a decimal digit character, when it is one. -/
def charDigit (c : Char) : Option Nat :=
  List.lookup c
    [('0', 0), ('1', 1), ('2', 2), ('3', 3), ('4', 4),
     ('5', 5), ('6', 6), ('7', 7), ('8', 8), ('9', 9)]

/-- Accumulating decimal parser over a character list; `none` when a
non-digit appears or no digit was seen at all. -/
def parseDigits : Option Nat → List Char → Option Nat
  | acc, [] => acc
  | acc, c :: cs =>
    match charDigit c with
    | none => none
    | some d => parseDigits (some ((acc.getD 0) * 10 + d)) cs

/-- Modelled from the spec: parsing an attribute string as a decimal natural
number (JS `parseInt` on a non-negative index). -/
def parseNatAttr (s : String) : Option Nat :=
  parseDigits none s.data

/-- Modelled from the spec: parsing an attribute string as a decimal integer
with an optional leading minus sign. -/
def parseIntAttr (s : String) : Option Int :=
  match s.data with
  | '-' :: ds => (parseDigits none ds).map (fun n => -(n : Int))
  | ds => (parseDigits none ds).map (fun n => (n : Int))

/-- Modelled from the spec: `randomMechanics.getCaseRuleBounds($rule)` is
external to the source excerpt.  Per the spec, a "case" rule carries either a
"value" attribute or a "from"/"to" pair, resolved to integer bounds; when
neither resolves the routine returns null. -/
def getCaseRuleBounds (rule : RuleNode) : Option (Int × Int) :=
  match (rule.attr "value").bind parseIntAttr with
  | some v => some (v, v)
  | none =>
    match (rule.attr "from").bind parseIntAttr, (rule.attr "to").bind parseIntAttr with
    | some f, some t => some (f, t)
    | _, _ => none

/-- Modelled from the spec: `mechanicsEngine.getArrayProperty($rule, property)`
is external to the source excerpt; per the spec it splits the attribute into
several values and returns an empty list when the attribute is absent. -/
def getArrayProperty (rule : RuleNode) (property : String) : List String :=
  match rule.attr property with
  | none => []
  | some s => if s = "" then [] else s.splitOn " "

/-- jQuery `$xmlSection.find('a[href=random]:eq(txtIndex)')`: the list of
matched elements (the link at that index, when it exists). -/
def findRandomLink (xml : SectionXmlData) (txtIndex : String) : List Unit :=
  match parseNatAttr txtIndex with
  | some i => if i < xml.randomLinkCount then [()] else []
  | none => []

/-! ## Schema validation and the validator instance -/

/-- The process-wide schema state: the cached XSD text (`BookValidator.xsdText`,
null until downloaded) and the external schema-validation routine
(`validateXML`, supplied by the xmllint.js library), modelled from the spec
as a function from the xml text, the schema text and the CLI-style argument
list to its human-readable output string. -/
structure XsdState where
  xsdText : Option String
  validateXMLExt : String → String → List String → String

/-- The source's workaround `xmlText.replace(/[áéíóú¡¿’]/gi, '')`: removes
those accented/special characters (both cases). -/
def stripAccents (s : String) : String :=
  ⟨s.data.filter (fun c =>
    !(['á', 'é', 'í', 'ó', 'ú', '¡', '¿', '’', 'Á', 'É', 'Í', 'Ó', 'Ú'].contains c))⟩

/-- `BookValidator.validateXml`: when the XSD is not loaded it pushes one
fixed error and returns; otherwise it serializes the mechanics XML, strips
the problematic characters, invokes the external validator and pushes its
raw output unless that output equals `"<filename> validates"`. -/
def validateXml (ext : XsdState) (m : Mechanics) (b : Book) : List String :=
  match ext.xsdText with
  | none => ["The XSD for mechanics validation has not been downloaded"]
  | some xsd =>
    let xmlText :=
      match m.mechanicsXmlText with
      | some t => if t != "" then t else m.serializedXml
      | none => m.serializedXml
    let xmlText := stripAccents xmlText
    let mechanicsFileName := "mechanics-" ++ toString b.bookNumber ++ ".xml"
    let xmllint :=
      (ext.validateXMLExt xmlText xsd
        ["--noout", "--schema", "mechanics.xsd", mechanicsFileName]).trim
    if xmllint != mechanicsFileName ++ " validates" then [xmllint] else []

/-! ## BookValidator: validation context and helpers -/

/-- The state a dispatched member reads: the static schema state
(`BookValidator.xsdText` plus the external validator, readable from any
instance method), the validator's `mechanics` and `book` fields, and
`currentSection` (set by `validateSectionInternal`). -/
structure Ctx where
  xsd : XsdState
  mechanics : Mechanics
  book : Book
  currentSection : BookSection

/-- `BookValidator.addError`: formats one error string.  The source pushes
this string onto `this.errors`; here checks return the list of strings they
push, in order. -/
def addError (ctx : Ctx) (rule : RuleNode) (errorMsg : String) : String :=
  "Section " ++ ctx.currentSection.sectionId ++ ", rule " ++ rule.nodeName ++ ": " ++ errorMsg

/-- `BookValidator.getPropertyValueAsArray`. -/
def getPropertyValueAsArray (rule : RuleNode) (property : String) (allowMultiple : Bool) :
    List String :=
  if allowMultiple then getArrayProperty rule property
  else
    match rule.attr property with
    | some value => if value != "" then [value] else []
    | none => []

/-- `BookValidator.validateObjectIdsAttribute`: returns whether any ids were
present, together with the errors pushed (one per unresolved id, in order). -/
def validateObjectIdsAttribute (ctx : Ctx) (rule : RuleNode) (property : String)
    (allowMultiple : Bool) : Bool × List String :=
  let objectIds := getPropertyValueAsArray rule property allowMultiple
  if objectIds.length = 0 then (false, [])
  else
    (true, objectIds.filterMap (fun objectId =>
      if !(ctx.mechanics.getObject objectId) then
        some (addError ctx rule ("Object id " ++ objectId ++ " not found"))
      else none))

/-- `BookValidator.validateNumericExpression`: a deliberate stub in the
source ("TODO: Pending"); it pushes nothing. -/
def validateNumericExpression (ctx : Ctx) (rule : RuleNode) (property : String) :
    List String :=
  []

/-- `BookValidator.validateBooleanExpression`: a deliberate stub in the
source ("TODO: Pending"); it pushes nothing. -/
def validateBooleanExpression (ctx : Ctx) (rule : RuleNode) (property : String) :
    List String :=
  []

/-- `BookValidator.validateDisciplinesAttribute`. -/
def validateDisciplinesAttribute (ctx : Ctx) (rule : RuleNode) (property : String)
    (allowMultiple : Bool) : List String :=
  let disciplinesIds := getPropertyValueAsArray rule property allowMultiple
  if disciplinesIds.length = 0 then []
  else
    disciplinesIds.filterMap (fun disciplineId =>
      if !(ctx.book.disciplines.contains disciplineId) then
        some (addError ctx rule ("Wrong discipline id: " ++ disciplineId))
      else none)

/-- `BookValidator.validateSectionsAttribute`: a section exists when
`book.getSectionXml(id)` is non-empty, i.e. the id is in the book's section
table. -/
def validateSectionsAttribute (ctx : Ctx) (rule : RuleNode) (property : String)
    (allowMultiple : Bool) : List String :=
  (getPropertyValueAsArray rule property allowMultiple).filterMap (fun sectionId =>
    if (List.lookup sectionId ctx.book.sections).isNone then
      some (addError ctx rule ("Section does not exists: " ++ sectionId))
    else none)

/-- `BookValidator.validateSectionChoiceAttribute`: looks for a
`choice[idref=sectionId]` element in the current section's XML. -/
def validateSectionChoiceAttribute (ctx : Ctx) (rule : RuleNode) (property : String) :
    List String :=
  match rule.attr property with
  | none => []
  | some sectionId =>
    if sectionId = "" then []
    else if !(ctx.currentSection.xml.choiceIdrefs.contains sectionId) then
      [addError ctx rule ("No choice found on this section with destination to " ++ sectionId)]
    else []

/-! ## Per-rule-type checks -/

/-- `BookValidator.pick`. -/
def pick (ctx : Ctx) (rule : RuleNode) : List String :=
  let oid := validateObjectIdsAttribute ctx rule "objectId" false
  let objectIdFound := oid.1
  let classFound := jsTruthy (rule.attr "class")
  let onlyOne := (objectIdFound && !classFound) || (!objectIdFound && classFound)
  oid.2
    ++ (if !onlyOne then
          [addError ctx rule "Must to have a \"objectId\" or \"class\" attribute, and only one"]
        else [])
    ++ (if classFound && !(jsTruthy (rule.attr "count")) then
          [addError ctx rule "Must to have a \"count\" attribute"]
        else [])
    ++ validateNumericExpression ctx rule "count"

/-- The integers from `lo` to `hi` inclusive, in order: the values taken by
the source's `for (let i = lo; i <= hi; i++)` loops. -/
def intRange (lo hi : Int) : List Int :=
  (List.range (hi + 1 - lo).toNat).map (fun (k : Nat) => lo + (k : Int))

/-- One iteration of the coverage loop body: if `i` is already covered the
`overlapped` flag is set, otherwise `i` is pushed onto `coverage`. -/
def coverStep (cv : List Int × Bool) (i : Int) : List Int × Bool :=
  if cv.1.contains i then (cv.1, true) else (cv.1 ++ [i], cv.2)

/-- Folding one valid case range `[from, to]` into the coverage state. -/
def coverRange (cv : List Int × Bool) (bounds : Int × Int) : List Int × Bool :=
  (intRange bounds.1 bounds.2).foldl coverStep cv

/-- The mutable state of `randomTable`'s scan over its children:
`coverage`, `overlapped` and `nCasesFound`. -/
structure ScanState where
  coverage : List Int
  overlapped : Bool
  nCasesFound : Nat

/-- One iteration of `randomTable`'s `for (let child of $rule.children())`
loop: "case" children are counted, and those with valid (non-inverted)
bounds are folded into the coverage state. -/
def scanCase (st : ScanState) (child : RuleNode) : ScanState :=
  if child.nodeName = "case" then
    let n := st.nCasesFound + 1
    match getCaseRuleBounds child with
    | some bounds =>
      if bounds.1 ≤ bounds.2 then
        let cv := coverRange (st.coverage, st.overlapped) bounds
        ⟨cv.1, cv.2, n⟩
      else ⟨st.coverage, st.overlapped, n⟩
    | none => ⟨st.coverage, st.overlapped, n⟩
  else st

/-- The whole children scan of `randomTable`, starting from empty coverage. -/
def scanCases (children : List RuleNode) : ScanState :=
  children.foldl scanCase ⟨[], false, 0⟩

/-- `BookValidator.randomTable`.  Note on the first check: the source tests
`if (!$random)` on the result of jQuery `.find`, and a jQuery object is
always truthy, so the branch pushing "Link to random table not found" is
modelled (faithfully) as unreachable through `jqTruthy`. -/
def randomTable (ctx : Ctx) (rule : RuleNode) : List String :=
  let linkErrors :=
    if !(jsTruthy (rule.attr "text-en")) then
      let txtIndex :=
        match rule.attr "index" with
        | some s => if s != "" then s else "0"
        | none => "0"
      let found := findRandomLink ctx.currentSection.xml txtIndex
      if !(jqTruthy found) then [addError ctx rule "Link to random table not found"] else []
    else []
  let st := scanCases rule.children
  if st.nCasesFound = 0 then linkErrors
  else
    let numberToTest : Int × Int :=
      if rule.attr "zeroAsTen" = some "true" then (1, 10) else (0, 9)
    let missedNumbers :=
      (intRange numberToTest.1 numberToTest.2).any (fun i => !(st.coverage.contains i))
    linkErrors
      ++ (if missedNumbers then [addError ctx rule "Missed numbers"] else [])
      ++ (if st.overlapped then [addError ctx rule "Overlapped numbers"] else [])

/-- `BookValidator.case` (named `caseRule` here: `case` is reserved in Lean). -/
def caseRule (ctx : Ctx) (rule : RuleNode) : List String :=
  match getCaseRuleBounds rule with
  | none => [addError ctx rule "Needs \"value\" or \"from\" / \"to\" attributes"]
  | some bounds => if bounds.1 > bounds.2 then [addError ctx rule "Wrong range"] else []

/-- `BookValidator.test`. -/
def test (ctx : Ctx) (rule : RuleNode) : List String :=
  validateDisciplinesAttribute ctx rule "hasDiscipline" true
    ++ (validateObjectIdsAttribute ctx rule "hasObject" true).2
    ++ validateBooleanExpression ctx rule "expression"
    ++ validateSectionsAttribute ctx rule "sectionVisited" true
    ++ (validateObjectIdsAttribute ctx rule "currentWeapon" false).2
    ++ (match rule.attr "bookLanguage" with
        | some language =>
          if language != "" && language != "en" && language != "es" then
            [addError ctx rule ("Wrong language: " ++ language)]
          else []
        | none => [])
    ++ validateSectionChoiceAttribute ctx rule "isChoiceEnabled"

mutual

/-- `BookValidator.validateRule`:
`if (this[rule.nodeName]) this[rule.nodeName]($(rule))`, then
unconditionally recurse into the children.  The property lookup reaches
every member of the instance named by the tag, not only the four per-rule
checks.  The dispatch is inlined here (see `ruleCheck` for the identical
standalone function and for the member-by-member account); the two member
names whose invocation walks the element's children one extra time make it
part of this mutual recursion. -/
def validateRule (ctx : Ctx) : RuleNode → List String
  | .mk nodeName attrs children =>
    (if nodeName = "pick" then pick ctx (.mk nodeName attrs children)
     else if nodeName = "randomTable" then randomTable ctx (.mk nodeName attrs children)
     else if nodeName = "case" then caseRule ctx (.mk nodeName attrs children)
     else if nodeName = "test" then test ctx (.mk nodeName attrs children)
     else if nodeName = "addError" then [addError ctx (.mk nodeName attrs children) "undefined"]
     else if nodeName = "validateXml" then validateXml ctx.xsd ctx.mechanics ctx.book
     else if nodeName = "validateChildrenRules" then validateChildrenList ctx children
     else if nodeName = "validateRule" then validateChildrenList ctx children
     else [])
    ++ validateChildrenList ctx children

/-- The `for (let child of $parent.children())` loop of
`BookValidator.validateChildrenRules`. -/
def validateChildrenList (ctx : Ctx) : List RuleNode → List String
  | [] => []
  | child :: rest => validateRule ctx child ++ validateChildrenList ctx rest

end

/-- The strings pushed by `this[rule.nodeName]($(rule))`, member by member
(defeq to the dispatch inlined in `validateRule`):
* `pick`, `randomTable`, `case`, `test`: the four per-rule-type checks;
* `addError`: invoked with `errorMsg` undefined, pushes
  `Section <id>, rule <tag>: undefined` (JS concatenation of undefined);
* `validateXml`: ignores its argument and pushes its raw schema-validation
  strings, read from the static schema state in the context;
* `validateChildrenRules` and `validateRule`: walk the element's children
  one extra time (`validateRule` on a jQuery object sees an undefined
  `nodeName`, dispatches nothing, and falls through to the child walk);
* the attribute helpers (`getPropertyValueAsArray`,
  `validateObjectIdsAttribute`, `validateDisciplinesAttribute`,
  `validateSectionsAttribute`, `validateSectionChoiceAttribute`) receive an
  undefined property name, read no attribute values and push nothing, and
  the two expression stubs push nothing: all of these coincide with the
  final else branch, as do the inherited `Object.prototype` functions
  (`toString` and friends);
* members that are not functions (`mechanics`, `book`, `errors`,
  `currentSection`), the class `constructor` and the legacy
  `Object.prototype` accessors throw a TypeError, ending the call with only
  the (addError-shaped) errors pushed so far; the model pushes nothing for
  them and walks on, which only adds further addError-shaped strings;
* `validateSection` and `validateSectionInternal` re-enter the validator
  with a jQuery object for a section id, resetting the error list or
  repointing `currentSection`; every string they push goes through
  `addError` and is shaped; the model pushes nothing for them;
* `validateBook` re-enters the whole validator: it resets the error list,
  re-runs `validateXml` (pushing its raw strings) and restarts the
  traversal, possibly forever.  It is, besides `validateXml`, the one
  member whose dispatch can push strings outside the `addError` shape; the
  model pushes nothing for it, and the error-shape theorem for claim C2
  excludes trees naming it or `validateXml` (see `rawPushingMemberNames`). -/
def ruleCheck (ctx : Ctx) (rule : RuleNode) : List String :=
  if rule.nodeName = "pick" then pick ctx rule
  else if rule.nodeName = "randomTable" then randomTable ctx rule
  else if rule.nodeName = "case" then caseRule ctx rule
  else if rule.nodeName = "test" then test ctx rule
  else if rule.nodeName = "addError" then [addError ctx rule "undefined"]
  else if rule.nodeName = "validateXml" then validateXml ctx.xsd ctx.mechanics ctx.book
  else if rule.nodeName = "validateChildrenRules" then validateChildrenList ctx rule.children
  else if rule.nodeName = "validateRule" then validateChildrenList ctx rule.children
  else []

/-- `BookValidator.validateChildrenRules`, including its null check on the
parent (`getSection` can return null). -/
def validateChildrenRules (ctx : Ctx) : Option RuleNode → List String
  | none => []
  | some parent => validateChildrenList ctx parent.children

/-- `BookValidator.validateSectionInternal`: builds `currentSection` and
validates the section's rule subtree.  Returns the errors pushed.  The
static schema state is passed in because the name-based dispatch can invoke
`validateXml` from inside the tree. -/
def validateSectionInternal (ext : XsdState) (m : Mechanics) (b : Book) (sectionId : String) :
    List String :=
  let currentSection := mkSection b sectionId
  let ctx : Ctx := ⟨ext, m, b, currentSection⟩
  validateChildrenRules ctx (m.getSection sectionId)

/-- The `BookValidator` instance state: its `mechanics` and `book` fields and
the accumulated `errors` list. -/
structure BookValidator where
  mechanics : Mechanics
  book : Book
  errors : List String

/-- `BookValidator.validateSection`: `this.errors = []` followed by
`validateSectionInternal`.  The static schema state is an explicit
argument of the model (see `validateSectionInternal`). -/
def BookValidator.validateSection (ext : XsdState) (v : BookValidator) (sectionId : String) :
    BookValidator :=
  { v with errors := validateSectionInternal ext v.mechanics v.book sectionId }

/-- The `while (currentSectionId != lastSectionId)` traversal of
`validateBook`, made total with an explicit fuel: `none` means the loop did
not reach the terminal section within `fuel` iterations (the source loop
would still be running). -/
def validateBookLoop (ext : XsdState) (m : Mechanics) (b : Book) :
    Nat → String → Option (List String)
  | 0, _ => none
  | fuel + 1, currentSectionId =>
    if currentSectionId = m.getLastSectionId then some []
    else
      match validateBookLoop ext m b fuel (getNextSectionId b currentSectionId) with
      | none => none
      | some rest => some (validateSectionInternal ext m b currentSectionId ++ rest)

/-- The same traversal, recording the ids of the sections it validates
instead of their errors. -/
def validateBookLoopVisited (m : Mechanics) (b : Book) : Nat → String → Option (List String)
  | 0, _ => none
  | fuel + 1, currentSectionId =>
    if currentSectionId = m.getLastSectionId then some []
    else
      match validateBookLoopVisited m b fuel (getNextSectionId b currentSectionId) with
      | none => none
      | some rest => some (currentSectionId :: rest)

/-- `BookValidator.validateBook` with explicit fuel for its traversal loop:
clears `this.errors`, runs `validateXml`, then traverses the section chain
from `Book.INITIAL_SECTION`.  `none` means the source loop does not
terminate within `fuel` iterations. -/
def BookValidator.validateBookFuel (ext : XsdState) (v : BookValidator) (fuel : Nat) :
    Option BookValidator :=
  match validateBookLoop ext v.mechanics v.book fuel Book.INITIAL_SECTION with
  | none => none
  | some sectionErrors =>
    some { v with errors := validateXml ext v.mechanics v.book ++ sectionErrors }

/-- `n`-fold application of the "next section" link, for stating when the
`validateBook` traversal terminates. -/
def iterNext (b : Book) : Nat → String → String
  | 0, sectionId => sectionId
  | n + 1, sectionId => iterNext b n (getNextSectionId b sectionId)

/-! ## Derived notions used to state the claims -/

/-- The valid (non-inverted) `[from, to]` integer ranges of the "case"
elements of a child list, in document order: exactly the ranges whose
integers `randomTable`'s scan folds into its coverage. -/
def validCaseRanges (children : List RuleNode) : List (Int × Int) :=
  children.filterMap (fun c =>
    if c.nodeName = "case" then
      match getCaseRuleBounds c with
      | some bounds => if bounds.1 ≤ bounds.2 then some bounds else none
      | none => none
    else none)

/-- The valid case ranges of a rule's immediate "case" children. -/
def caseRanges (rule : RuleNode) : List (Int × Int) :=
  validCaseRanges rule.children

/-- Some integer is covered by the valid ranges of two distinct immediate
"case" children of the rule: two entries of `caseRanges` (taken at distinct
positions, in order, hence the two-element sublist) share an integer. -/
def overlappedCases (rule : RuleNode) : Prop :=
  ∃ r1 r2, [r1, r2].Sublist (caseRanges rule) ∧
    ∃ i : Int, (r1.1 ≤ i ∧ i ≤ r1.2) ∧ (r2.1 ≤ i ∧ i ≤ r2.2)

/-- The shape of the strings `addError` produces:
`Section <id>, rule <tagName>: <message>`. -/
def hasErrorShape (s : String) : Prop :=
  ∃ id tag msg : String, s = "Section " ++ id ++ ", rule " ++ tag ++ ": " ++ msg

/-- The source's `numberToTest` bounds: `[1, 10]` when `zeroAsTen` is the
string "true", `[0, 9]` otherwise. -/
def targetBounds (rule : RuleNode) : Int × Int :=
  if rule.attr "zeroAsTen" = some "true" then (1, 10) else (0, 9)

/-- The source's `missedNumbers` flag. -/
def missedNumbersFlag (rule : RuleNode) : Bool :=
  (intRange (targetBounds rule).1 (targetBounds rule).2).any
    (fun i => !((scanCases rule.children).coverage.contains i))

/-- The condition of claim C3, taken at its word: exactly one of the
`objectId` and `class` attributes is present and, whenever `class` is
present, `count` is present too. -/
def pickClaimCondition (rule : RuleNode) : Bool :=
  (((rule.attr "objectId").isSome && !((rule.attr "class").isSome)) ||
    (!((rule.attr "objectId").isSome) && (rule.attr "class").isSome)) &&
  (!((rule.attr "class").isSome) || (rule.attr "count").isSome)

/-- The two member names whose dispatch pushes raw strings outside the
`addError` shape: `validateXml` pushes its schema-validation output
directly, and `validateBook` re-runs it (besides resetting the list and
restarting the traversal).  Every other member either is one of the four
rule checks, pushes an addError-shaped string, pushes nothing, or throws
before pushing anything; see `ruleCheck`. -/
def rawPushingMemberNames : List String :=
  ["validateXml", "validateBook"]

mutual

/-- No element of this subtree bears a name in `bad`. -/
def nodeAvoids (bad : List String) : RuleNode → Bool
  | .mk nodeName _ children => !(bad.contains nodeName) && nodesAvoid bad children

/-- No element of these subtrees bears a name in `bad`. -/
def nodesAvoid (bad : List String) : List RuleNode → Bool
  | [] => true
  | c :: cs => nodeAvoids bad c && nodesAvoid bad cs

end

/-- No element of the section's mechanics rule tree is named after a member
whose dispatch pushes raw (unshaped) strings. -/
def sectionTreeShapeSafe (m : Mechanics) (sectionId : String) : Bool :=
  match m.getSection sectionId with
  | none => true
  | some parent => nodesAvoid rawPushingMemberNames parent.children

/-! ## Concrete inputs used by counterexamples and witnesses -/

/-- A schema state in which the XSD has not been downloaded. -/
def extNoXsd : XsdState := ⟨none, fun _ _ _ => ""⟩

/-- A mechanics snapshot with an empty object table, no section rules and
terminal section "end". -/
def mA : Mechanics := ⟨[], [], "end", none, ""⟩

/-- A book with no disciplines and no section XML. -/
def bA : Book := ⟨1, [], []⟩

/-- A validation context whose current section is "s1". -/
def ctxA : Ctx := ⟨extNoXsd, mA, bA, mkSection bA "s1"⟩

/-- A pick rule whose objectId does not resolve in the (empty) object table. -/
def pickRuleA : RuleNode := .mk "pick" [("objectId", "foo")] []

/-- A randomTable rule with one case covering only 0..5. -/
def rtRuleMissed : RuleNode :=
  .mk "randomTable" [] [.mk "case" [("from", "0"), ("to", "5")] []]

/-- A randomTable rule with two cases whose ranges 1..5 and 3..7 overlap. -/
def rtRuleOverlap : RuleNode :=
  .mk "randomTable" []
    [.mk "case" [("from", "1"), ("to", "5")] [], .mk "case" [("from", "3"), ("to", "7")] []]

/-- A randomTable rule with attributes but no "case" children. -/
def rtRuleNoCases : RuleNode := .mk "randomTable" [("zeroAsTen", "true"), ("index", "2")] []

/-- A mechanics snapshot whose terminal section is the initial section, so
the `validateBook` traversal validates no section at all. -/
def mTrivial : Mechanics := ⟨[], [], Book.INITIAL_SECTION, none, ""⟩

/-- A mechanics snapshot whose section "s1" rule tree contains an element
named `validateXml`: the name-based dispatch invokes schema validation from
inside the tree. -/
def mDispatch : Mechanics :=
  ⟨[], [("s1", .mk "mechanics" [] [.mk "validateXml" [] []])], "end", none, ""⟩

/-- A mechanics snapshot that attaches a failing pick rule to the initial
section and names "end" as the terminal section. -/
def mChain : Mechanics :=
  ⟨[], [(Book.INITIAL_SECTION, .mk "mechanics" [] [.mk "pick" [] []])], "end", none, ""⟩

/-- A book whose initial section links to the terminal section "end". -/
def bChain : Book := ⟨1, [], [(Book.INITIAL_SECTION, ⟨"end", 0, []⟩)]⟩

/-- A mechanics snapshot with a failing pick rule on section "s1". -/
def mShape : Mechanics := ⟨[], [("s1", .mk "mechanics" [] [.mk "pick" [] []])], "end", none, ""⟩

/-! ## Lemmas about the coverage scan -/

lemma contains_iff_mem_int (l : List Int) (i : Int) : l.contains i = true ↔ i ∈ l := by
  simp [List.contains]

lemma mem_intRange {lo hi i : Int} : i ∈ intRange lo hi ↔ lo ≤ i ∧ i ≤ hi := by
  simp only [intRange, List.mem_map, List.mem_range]
  constructor
  · rintro ⟨k, hk, rfl⟩
    omega
  · intro h
    exact ⟨(i - lo).toNat, by omega, by omega⟩

lemma nodup_intRange (lo hi : Int) : (intRange lo hi).Nodup := by
  refine List.Nodup.map ?_ (List.nodup_range _)
  intro a b h
  simpa using h

lemma mem_foldl_coverStep (l : List Int) : ∀ (cv : List Int × Bool) (i : Int),
    i ∈ (l.foldl coverStep cv).1 ↔ i ∈ cv.1 ∨ i ∈ l := by
  induction l with
  | nil => intro cv i; simp
  | cons a t ih =>
    intro cv i
    rw [List.foldl_cons, ih]
    unfold coverStep
    by_cases h : cv.1.contains a
    · rw [if_pos h]
      have ha : a ∈ cv.1 := (contains_iff_mem_int _ _).1 h
      simp only [List.mem_cons]
      constructor
      · rintro (h1 | h1)
        · exact Or.inl h1
        · exact Or.inr (Or.inr h1)
      · rintro (h1 | rfl | h1)
        · exact Or.inl h1
        · exact Or.inl ha
        · exact Or.inr h1
    · rw [if_neg h]
      simp only [List.mem_append, List.mem_cons, List.not_mem_nil, or_false]
      tauto

lemma overlapped_foldl_coverStep : ∀ (l : List Int), l.Nodup → ∀ (cv : List Int × Bool),
    ((l.foldl coverStep cv).2 = true ↔ cv.2 = true ∨ ∃ i ∈ l, i ∈ cv.1) := by
  intro l
  induction l with
  | nil => intro _ cv; simp
  | cons a t ih =>
    intro hl cv
    obtain ⟨hat, ht⟩ := List.nodup_cons.1 hl
    rw [List.foldl_cons, ih ht]
    unfold coverStep
    by_cases h : cv.1.contains a
    · rw [if_pos h]
      have ha : a ∈ cv.1 := (contains_iff_mem_int _ _).1 h
      constructor
      · intro _
        exact Or.inr ⟨a, List.mem_cons_self a t, ha⟩
      · intro _
        exact Or.inl rfl
    · rw [if_neg h]
      have ha : a ∉ cv.1 := fun hmem => h ((contains_iff_mem_int _ _).2 hmem)
      simp only [List.mem_append, List.mem_cons, List.not_mem_nil, or_false]
      constructor
      · rintro (h2 | ⟨i, hi, hic | rfl⟩)
        · exact Or.inl h2
        · exact Or.inr ⟨i, Or.inr hi, hic⟩
        · exact absurd hi hat
      · rintro (h2 | ⟨i, rfl | hi, hic⟩)
        · exact Or.inl h2
        · exact absurd hic ha
        · exact Or.inr ⟨i, hi, Or.inl hic⟩

lemma mem_foldl_coverRange : ∀ (rs : List (Int × Int)) (cv : List Int × Bool) (i : Int),
    i ∈ (rs.foldl coverRange cv).1 ↔ i ∈ cv.1 ∨ ∃ r ∈ rs, r.1 ≤ i ∧ i ≤ r.2 := by
  intro rs
  induction rs with
  | nil => intro cv i; simp
  | cons r rest ih =>
    intro cv i
    rw [List.foldl_cons, ih]
    unfold coverRange
    rw [mem_foldl_coverStep]
    simp only [mem_intRange]
    constructor
    · rintro ((h | h) | ⟨s, hs, h1, h2⟩)
      · exact Or.inl h
      · exact Or.inr ⟨r, List.mem_cons_self r rest, h⟩
      · exact Or.inr ⟨s, List.mem_cons_of_mem r hs, h1, h2⟩
    · rintro (h | ⟨s, hs, h1, h2⟩)
      · exact Or.inl (Or.inl h)
      · rcases List.mem_cons.1 hs with rfl | hs2
        · exact Or.inl (Or.inr ⟨h1, h2⟩)
        · exact Or.inr ⟨s, hs2, h1, h2⟩

lemma overlapped_foldl_coverRange : ∀ (rs : List (Int × Int)) (cv : List Int × Bool),
    ((rs.foldl coverRange cv).2 = true ↔
      cv.2 = true ∨ (∃ r ∈ rs, ∃ i : Int, r.1 ≤ i ∧ i ≤ r.2 ∧ i ∈ cv.1) ∨
        ∃ r1 r2, [r1, r2].Sublist rs ∧
          ∃ i : Int, (r1.1 ≤ i ∧ i ≤ r1.2) ∧ (r2.1 ≤ i ∧ i ≤ r2.2)) := by
  intro rs
  induction rs with
  | nil => intro cv; simp
  | cons r rest ih =>
    intro cv
    rw [List.foldl_cons, ih]
    have h2 : (coverRange cv r).2 = true ↔
        cv.2 = true ∨ ∃ i : Int, r.1 ≤ i ∧ i ≤ r.2 ∧ i ∈ cv.1 := by
      unfold coverRange
      rw [overlapped_foldl_coverStep _ (nodup_intRange _ _)]
      simp only [mem_intRange]
      constructor
      · rintro (h | ⟨i, ⟨ha, hb⟩, hc⟩)
        · exact Or.inl h
        · exact Or.inr ⟨i, ha, hb, hc⟩
      · rintro (h | ⟨i, ha, hb, hc⟩)
        · exact Or.inl h
        · exact Or.inr ⟨i, ⟨ha, hb⟩, hc⟩
    have h1mem : ∀ i : Int, i ∈ (coverRange cv r).1 ↔ i ∈ cv.1 ∨ (r.1 ≤ i ∧ i ≤ r.2) := by
      intro i
      unfold coverRange
      rw [mem_foldl_coverStep]
      simp only [mem_intRange]
    rw [h2]
    simp only [h1mem]
    constructor
    · rintro ((h | ⟨i, ha, hb, hc⟩) | ⟨s, hs, i, ha, hb, hc | hc⟩ | ⟨r1, r2, hsub, i, hp, hq⟩)
      · exact Or.inl h
      · exact Or.inr (Or.inl ⟨r, List.mem_cons_self r rest, i, ha, hb, hc⟩)
      · exact Or.inr (Or.inl ⟨s, List.mem_cons_of_mem r hs, i, ha, hb, hc⟩)
      · exact Or.inr (Or.inr ⟨r, s,
          List.Sublist.cons₂ r (List.singleton_sublist.2 hs), i, hc, ha, hb⟩)
      · exact Or.inr (Or.inr ⟨r1, r2, hsub.cons r, i, hp, hq⟩)
    · rintro (h | ⟨s, hs, i, ha, hb, hc⟩ | ⟨r1, r2, hsub, i, hp, hq⟩)
      · exact Or.inl (Or.inl h)
      · rcases List.mem_cons.1 hs with rfl | hs2
        · exact Or.inl (Or.inr ⟨i, ha, hb, hc⟩)
        · exact Or.inr (Or.inl ⟨s, hs2, i, ha, hb, Or.inl hc⟩)
      · rcases List.sublist_cons_iff.1 hsub with hsub2 | ⟨tl, heq, htl⟩
        · exact Or.inr (Or.inr ⟨r1, r2, hsub2, i, hp, hq⟩)
        · injection heq with he1 he2
          subst he1
          subst he2
          exact Or.inr (Or.inl ⟨r2, List.singleton_sublist.1 htl, i, hq.1, hq.2, Or.inr hp⟩)

lemma scanCase_not_case (st : ScanState) (c : RuleNode) (hc : ¬(c.nodeName = "case")) :
    scanCase st c = st := by
  simp [scanCase, hc]

lemma scanCase_no_bounds (st : ScanState) (c : RuleNode) (hc : c.nodeName = "case")
    (hb : getCaseRuleBounds c = none) :
    scanCase st c = ⟨st.coverage, st.overlapped, st.nCasesFound + 1⟩ := by
  simp [scanCase, hc, hb]

lemma scanCase_invalid (st : ScanState) (c : RuleNode) (f t : Int)
    (hc : c.nodeName = "case") (hb : getCaseRuleBounds c = some (f, t)) (hv : ¬(f ≤ t)) :
    scanCase st c = ⟨st.coverage, st.overlapped, st.nCasesFound + 1⟩ := by
  simp [scanCase, hc, hb, hv]

lemma scanCase_valid (st : ScanState) (c : RuleNode) (f t : Int)
    (hc : c.nodeName = "case") (hb : getCaseRuleBounds c = some (f, t)) (hv : f ≤ t) :
    scanCase st c = ⟨(coverRange (st.coverage, st.overlapped) (f, t)).1,
      (coverRange (st.coverage, st.overlapped) (f, t)).2, st.nCasesFound + 1⟩ := by
  simp [scanCase, hc, hb, hv]

lemma validCaseRanges_cons_not_case (c : RuleNode) (rest : List RuleNode)
    (hc : ¬(c.nodeName = "case")) :
    validCaseRanges (c :: rest) = validCaseRanges rest := by
  simp [validCaseRanges, List.filterMap_cons, hc]

lemma validCaseRanges_cons_none (c : RuleNode) (rest : List RuleNode)
    (hb : getCaseRuleBounds c = none) :
    validCaseRanges (c :: rest) = validCaseRanges rest := by
  by_cases hc : c.nodeName = "case"
  · simp [validCaseRanges, List.filterMap_cons, hc, hb]
  · simp [validCaseRanges, List.filterMap_cons, hc]

lemma validCaseRanges_cons_invalid (c : RuleNode) (rest : List RuleNode) (f t : Int)
    (hb : getCaseRuleBounds c = some (f, t)) (hv : ¬(f ≤ t)) :
    validCaseRanges (c :: rest) = validCaseRanges rest := by
  by_cases hc : c.nodeName = "case"
  · simp [validCaseRanges, List.filterMap_cons, hc, hb, hv]
  · simp [validCaseRanges, List.filterMap_cons, hc]

lemma validCaseRanges_cons_valid (c : RuleNode) (rest : List RuleNode) (f t : Int)
    (hc : c.nodeName = "case") (hb : getCaseRuleBounds c = some (f, t)) (hv : f ≤ t) :
    validCaseRanges (c :: rest) = (f, t) :: validCaseRanges rest := by
  simp [validCaseRanges, List.filterMap_cons, hc, hb, hv]

lemma foldl_scanCase_eq : ∀ (children : List RuleNode) (st : ScanState),
    children.foldl scanCase st =
      ⟨((validCaseRanges children).foldl coverRange (st.coverage, st.overlapped)).1,
       ((validCaseRanges children).foldl coverRange (st.coverage, st.overlapped)).2,
       st.nCasesFound + children.countP (fun c => c.nodeName == "case")⟩ := by
  intro children
  induction children with
  | nil =>
    intro st
    cases st
    simp [validCaseRanges]
  | cons c rest ih =>
    intro st
    rw [List.foldl_cons, ih]
    by_cases hc : c.nodeName = "case"
    · have hc2 : (c.nodeName == "case") = true := by simp [hc]
      rcases hb : getCaseRuleBounds c with _ | ⟨f, t⟩
      · rw [scanCase_no_bounds st c hc hb, validCaseRanges_cons_none c rest hb]
        simp only [List.countP_cons, hc2, if_true, ScanState.mk.injEq]
        exact ⟨trivial, trivial, by omega⟩
      · by_cases hv : f ≤ t
        · rw [scanCase_valid st c f t hc hb hv, validCaseRanges_cons_valid c rest f t hc hb hv,
            List.foldl_cons]
          simp only [List.countP_cons, hc2, if_true, ScanState.mk.injEq, Prod.mk.eta]
          exact ⟨trivial, trivial, by omega⟩
        · rw [scanCase_invalid st c f t hc hb hv, validCaseRanges_cons_invalid c rest f t hb hv]
          simp only [List.countP_cons, hc2, if_true, ScanState.mk.injEq]
          exact ⟨trivial, trivial, by omega⟩
    · have hc2 : (c.nodeName == "case") = false := by simpa using hc
      rw [scanCase_not_case st c hc, validCaseRanges_cons_not_case c rest hc]
      simp only [List.countP_cons, hc2, if_false, ScanState.mk.injEq]
      exact ⟨trivial, trivial, by simp⟩

lemma scanCases_spec (children : List RuleNode) :
    scanCases children =
      ⟨((validCaseRanges children).foldl coverRange ([], false)).1,
       ((validCaseRanges children).foldl coverRange ([], false)).2,
       children.countP (fun c => c.nodeName == "case")⟩ := by
  unfold scanCases
  rw [foldl_scanCase_eq]
  simp

lemma scanCases_nCases (children : List RuleNode) :
    (scanCases children).nCasesFound = children.countP (fun c => c.nodeName == "case") := by
  rw [scanCases_spec]

lemma mem_scanCases_coverage (children : List RuleNode) (i : Int) :
    i ∈ (scanCases children).coverage ↔
      ∃ r ∈ validCaseRanges children, r.1 ≤ i ∧ i ≤ r.2 := by
  rw [scanCases_spec]
  show i ∈ ((validCaseRanges children).foldl coverRange ([], false)).1 ↔ _
  rw [mem_foldl_coverRange]
  simp

lemma scanCases_overlapped (children : List RuleNode) :
    ((scanCases children).overlapped = true ↔
      ∃ r1 r2, [r1, r2].Sublist (validCaseRanges children) ∧
        ∃ i : Int, (r1.1 ≤ i ∧ i ≤ r1.2) ∧ (r2.1 ≤ i ∧ i ≤ r2.2)) := by
  rw [scanCases_spec]
  show ((validCaseRanges children).foldl coverRange ([], false)).2 = true ↔ _
  rw [overlapped_foldl_coverRange]
  simp

lemma validCaseRanges_eq_nil_of_no_case (children : List RuleNode)
    (h : children.countP (fun c => c.nodeName == "case") = 0) :
    validCaseRanges children = [] := by
  induction children with
  | nil => rfl
  | cons c rest ih =>
    rw [List.countP_cons] at h
    have hc : ¬(c.nodeName = "case") := by
      intro hc
      simp [hc] at h
    have hrest : rest.countP (fun c => c.nodeName == "case") = 0 := by
      omega
    simp only [validCaseRanges, List.filterMap_cons, hc, if_false]
    exact ih hrest

/-! ## Lemmas about `randomTable` and `addError` -/

lemma randomTable_run (ctx : Ctx) (rule : RuleNode) :
    randomTable ctx rule =
      (if (scanCases rule.children).nCasesFound = 0 then []
       else
         (if missedNumbersFlag rule = true then [addError ctx rule "Missed numbers"] else [])
         ++ (if (scanCases rule.children).overlapped = true then
               [addError ctx rule "Overlapped numbers"]
             else [])) := by
  unfold randomTable missedNumbersFlag targetBounds
  simp [jqTruthy]

lemma addError_msg_length (ctx : Ctx) (rule : RuleNode) (m1 m2 : String)
    (h : addError ctx rule m1 = addError ctx rule m2) : m1.length = m2.length := by
  have hlen := congrArg String.length h
  simp only [addError, String.length_append] at hlen
  omega

lemma missed_ne_overlapped (ctx : Ctx) (rule : RuleNode) :
    addError ctx rule "Missed numbers" ≠ addError ctx rule "Overlapped numbers" := by
  intro h
  exact absurd (addError_msg_length ctx rule _ _ h) (by decide)

lemma link_ne_missed (ctx : Ctx) (rule : RuleNode) :
    addError ctx rule "Link to random table not found" ≠ addError ctx rule "Missed numbers" := by
  intro h
  exact absurd (addError_msg_length ctx rule _ _ h) (by decide)

lemma link_ne_overlapped (ctx : Ctx) (rule : RuleNode) :
    addError ctx rule "Link to random table not found"
      ≠ addError ctx rule "Overlapped numbers" := by
  intro h
  exact absurd (addError_msg_length ctx rule _ _ h) (by decide)

/-! ## Every rule-level error is an `addError` string -/

lemma mem_ite_singleton {α : Type} {c : Prop} [Decidable c] {a e : α}
    (h : e ∈ (if c then [a] else [])) : e = a := by
  split at h
  · simpa using h
  · simp at h

lemma validateObjectIdsAttribute_errors (ctx : Ctx) (rule : RuleNode) (property : String)
    (allowMultiple : Bool) :
    ∀ e ∈ (validateObjectIdsAttribute ctx rule property allowMultiple).2,
      ∃ msg, e = addError ctx rule msg := by
  intro e he
  unfold validateObjectIdsAttribute at he
  dsimp only at he
  split at he
  · simp at he
  · simp only [List.mem_filterMap] at he
    obtain ⟨oid, _, hoid⟩ := he
    split at hoid
    · exact ⟨_, (Option.some.inj hoid).symm⟩
    · simp at hoid

lemma validateDisciplinesAttribute_errors (ctx : Ctx) (rule : RuleNode) (property : String)
    (allowMultiple : Bool) :
    ∀ e ∈ validateDisciplinesAttribute ctx rule property allowMultiple,
      ∃ msg, e = addError ctx rule msg := by
  intro e he
  unfold validateDisciplinesAttribute at he
  dsimp only at he
  split at he
  · simp at he
  · simp only [List.mem_filterMap] at he
    obtain ⟨d, _, hd⟩ := he
    split at hd
    · exact ⟨_, (Option.some.inj hd).symm⟩
    · simp at hd

lemma validateSectionsAttribute_errors (ctx : Ctx) (rule : RuleNode) (property : String)
    (allowMultiple : Bool) :
    ∀ e ∈ validateSectionsAttribute ctx rule property allowMultiple,
      ∃ msg, e = addError ctx rule msg := by
  intro e he
  unfold validateSectionsAttribute at he
  simp only [List.mem_filterMap] at he
  obtain ⟨sid, _, hsid⟩ := he
  split at hsid
  · exact ⟨_, (Option.some.inj hsid).symm⟩
  · simp at hsid

lemma validateSectionChoiceAttribute_errors (ctx : Ctx) (rule : RuleNode) (property : String) :
    ∀ e ∈ validateSectionChoiceAttribute ctx rule property,
      ∃ msg, e = addError ctx rule msg := by
  intro e he
  unfold validateSectionChoiceAttribute at he
  split at he
  · simp at he
  · split at he
    · simp at he
    · split at he
      · exact ⟨_, by simpa using he⟩
      · simp at he

lemma pick_errors (ctx : Ctx) (rule : RuleNode) :
    ∀ e ∈ pick ctx rule, ∃ msg, e = addError ctx rule msg := by
  intro e he
  unfold pick at he
  simp only [validateNumericExpression, List.append_nil, List.mem_append] at he
  rcases he with (h | h) | h
  · exact validateObjectIdsAttribute_errors ctx rule _ _ e h
  · exact ⟨_, mem_ite_singleton h⟩
  · exact ⟨_, mem_ite_singleton h⟩

lemma randomTable_errors (ctx : Ctx) (rule : RuleNode) :
    ∀ e ∈ randomTable ctx rule, ∃ msg, e = addError ctx rule msg := by
  intro e he
  rw [randomTable_run] at he
  split at he
  · simp at he
  · rcases List.mem_append.1 he with h | h
    · exact ⟨_, mem_ite_singleton h⟩
    · exact ⟨_, mem_ite_singleton h⟩

lemma caseRule_errors (ctx : Ctx) (rule : RuleNode) :
    ∀ e ∈ caseRule ctx rule, ∃ msg, e = addError ctx rule msg := by
  intro e he
  unfold caseRule at he
  split at he
  · exact ⟨_, by simpa using he⟩
  · exact ⟨_, mem_ite_singleton he⟩

lemma test_errors (ctx : Ctx) (rule : RuleNode) :
    ∀ e ∈ test ctx rule, ∃ msg, e = addError ctx rule msg := by
  intro e he
  unfold test at he
  simp only [validateBooleanExpression, List.append_nil, List.mem_append] at he
  rcases he with ((((h | h) | h) | h) | h) | h
  · exact validateDisciplinesAttribute_errors ctx rule _ _ e h
  · exact validateObjectIdsAttribute_errors ctx rule _ _ e h
  · exact validateSectionsAttribute_errors ctx rule _ _ e h
  · exact validateObjectIdsAttribute_errors ctx rule _ _ e h
  · rcases hl : rule.attr "bookLanguage" with _ | language
    · rw [hl] at h
      simp at h
    · rw [hl] at h
      exact ⟨_, mem_ite_singleton h⟩
  · exact validateSectionChoiceAttribute_errors ctx rule _ e h

lemma validateRule_eq (ctx : Ctx) (nodeName : String) (attrs : List (String × String))
    (children : List RuleNode) :
    validateRule ctx (.mk nodeName attrs children) =
      ruleCheck ctx (.mk nodeName attrs children) ++ validateChildrenList ctx children := by
  rw [validateRule]
  rfl

lemma ruleCheck_errors (ctx : Ctx) (rule : RuleNode)
    (hname : rawPushingMemberNames.contains rule.nodeName = false)
    (hwalk : ∀ e ∈ validateChildrenList ctx rule.children, ∃ rr msg, e = addError ctx rr msg) :
    ∀ e ∈ ruleCheck ctx rule, ∃ rr msg, e = addError ctx rr msg := by
  intro e he
  unfold ruleCheck at he
  split at he
  · obtain ⟨msg, hm⟩ := pick_errors _ _ _ he
    exact ⟨rule, msg, hm⟩
  · split at he
    · obtain ⟨msg, hm⟩ := randomTable_errors _ _ _ he
      exact ⟨rule, msg, hm⟩
    · split at he
      · obtain ⟨msg, hm⟩ := caseRule_errors _ _ _ he
        exact ⟨rule, msg, hm⟩
      · split at he
        · obtain ⟨msg, hm⟩ := test_errors _ _ _ he
          exact ⟨rule, msg, hm⟩
        · split at he
          · exact ⟨rule, "undefined", by simpa using he⟩
          · split at he
            · rename_i hxml
              rw [hxml] at hname
              simp [rawPushingMemberNames] at hname
            · split at he
              · exact hwalk e he
              · split at he
                · exact hwalk e he
                · simp at he

lemma validateWalk_errors : ∀ (n : Nat) (ctx : Ctx) (cs : List RuleNode), sizeOf cs ≤ n →
    nodesAvoid rawPushingMemberNames cs = true →
    ∀ e ∈ validateChildrenList ctx cs, ∃ rr msg, e = addError ctx rr msg := by
  intro n
  induction n with
  | zero =>
    intro ctx cs hcs hsafe e he
    exfalso
    cases cs with
    | nil =>
      simp only [List.nil.sizeOf_spec] at hcs
      omega
    | cons c rest =>
      simp only [List.cons.sizeOf_spec] at hcs
      omega
  | succ n ih =>
    intro ctx cs hcs hsafe e he
    cases cs with
    | nil => simp [validateChildrenList] at he
    | cons c rest =>
      rw [nodesAvoid, Bool.and_eq_true] at hsafe
      obtain ⟨hsafec, hsafer⟩ := hsafe
      simp only [validateChildrenList, List.mem_append] at he
      rcases he with h | h
      · cases c with
        | mk nm a ch =>
          rw [nodeAvoids, Bool.and_eq_true] at hsafec
          obtain ⟨hnm, hch⟩ := hsafec
          have hsz : sizeOf ch ≤ n := by
            simp only [List.cons.sizeOf_spec, RuleNode.mk.sizeOf_spec] at hcs
            omega
          rw [validateRule_eq] at h
          rcases List.mem_append.1 h with h2 | h2
          · exact ruleCheck_errors ctx (.mk nm a ch) (by simpa using hnm)
              (ih ctx ch hsz hch) e h2
          · exact ih ctx ch hsz hch e h2
      · have hsz : sizeOf rest ≤ n := by
          simp only [List.cons.sizeOf_spec] at hcs
          omega
        exact ih ctx rest hsz hsafer e h

lemma validateSectionInternal_shape (ext : XsdState) (m : Mechanics) (b : Book)
    (sectionId : String) (hsafe : sectionTreeShapeSafe m sectionId = true) :
    ∀ e ∈ validateSectionInternal ext m b sectionId, hasErrorShape e := by
  intro e he
  unfold validateSectionInternal validateChildrenRules at he
  unfold sectionTreeShapeSafe at hsafe
  split at he
  · simp at he
  · rename_i parent heq
    rw [heq] at hsafe
    obtain ⟨rr, msg, hm⟩ :=
      validateWalk_errors (sizeOf _) _ _ le_rfl hsafe e he
    rw [hm]
    exact ⟨_, rr.nodeName, msg, rfl⟩

lemma hasErrorShape_head (s : String) (h : hasErrorShape s) : s.data.head? = some 'S' := by
  obtain ⟨id, tag, msg, rfl⟩ := h
  rfl

/-! ## Lemmas about the `validateBook` traversal -/

lemma validateBookLoop_visited : ∀ (fuel : Nat) (ext : XsdState) (m : Mechanics) (b : Book)
    (start : String) (errs : List String), validateBookLoop ext m b fuel start = some errs →
    ∃ ids, validateBookLoopVisited m b fuel start = some ids ∧
      m.getLastSectionId ∉ ids ∧ errs = ids.flatMap (validateSectionInternal ext m b) := by
  intro fuel
  induction fuel with
  | zero =>
    intro ext m b start errs h
    simp [validateBookLoop] at h
  | succ fuel ih =>
    intro ext m b start errs h
    simp only [validateBookLoop] at h
    split at h
    · rename_i hlast
      refine ⟨[], ?_, by simp, by simpa using h.symm⟩
      simp [validateBookLoopVisited, hlast]
    · rename_i hlast
      split at h
      · exact absurd h (by simp)
      · rename_i rest hrest
        obtain ⟨ids, hv, hnm, heq⟩ := ih ext m b (getNextSectionId b start) rest hrest
        refine ⟨start :: ids, ?_, ?_, ?_⟩
        · simp [validateBookLoopVisited, hlast, hv]
        · intro hmem
          rcases List.mem_cons.1 hmem with h2 | h2
          · exact hlast h2.symm
          · exact hnm h2
        · rw [List.flatMap_cons, ← heq]
          exact (Option.some.inj h).symm

lemma validateBookLoop_isSome_iff : ∀ (fuel : Nat) (ext : XsdState) (m : Mechanics) (b : Book)
    (start : String),
    ((validateBookLoop ext m b fuel start).isSome = true ↔
      ∃ n, n < fuel ∧ iterNext b n start = m.getLastSectionId) := by
  intro fuel
  induction fuel with
  | zero =>
    intro ext m b start
    simp [validateBookLoop]
  | succ fuel ih =>
    intro ext m b start
    simp only [validateBookLoop]
    split
    · rename_i hlast
      simp only [Option.isSome_some, true_iff]
      exact ⟨0, Nat.succ_pos fuel, hlast⟩
    · rename_i hlast
      have hiter : ∀ n, iterNext b (n + 1) start = iterNext b n (getNextSectionId b start) :=
        fun n => rfl
      constructor
      · intro hs
        have hs2 : (validateBookLoop ext m b fuel (getNextSectionId b start)).isSome = true := by
          rcases hmatch : validateBookLoop ext m b fuel (getNextSectionId b start) with _ | rest
          · rw [hmatch] at hs
            simp at hs
          · simp [hmatch]
        obtain ⟨n, hn, hl⟩ := (ih ext m b (getNextSectionId b start)).1 hs2
        exact ⟨n + 1, by omega, by rw [hiter]; exact hl⟩
      · rintro ⟨n, hn, hl⟩
        cases n with
        | zero => exact absurd hl hlast
        | succ k =>
          rw [hiter] at hl
          have hs2 := (ih ext m b (getNextSectionId b start)).2 ⟨k, by omega, hl⟩
          rcases hmatch : validateBookLoop ext m b fuel (getNextSectionId b start) with _ | rest
          · rw [hmatch] at hs2
            simp at hs2
          · simp

lemma validateBookFuel_isSome (ext : XsdState) (v : BookValidator) (fuel : Nat) :
    (BookValidator.validateBookFuel ext v fuel).isSome =
      (validateBookLoop ext v.mechanics v.book fuel Book.INITIAL_SECTION).isSome := by
  unfold BookValidator.validateBookFuel
  rcases h : validateBookLoop ext v.mechanics v.book fuel Book.INITIAL_SECTION with _ | errs <;>
    simp

lemma count_ite_singleton_of_ne {c : Prop} [Decidable c] {a e : String} (h : ¬(a = e)) :
    (if c then [a] else []).count e = 0 := by
  split
  · simp [List.count_singleton, h]
  · rfl

lemma count_ite_singleton_self {c : Prop} [Decidable c] (a : String) :
    (if c then [a] else []).count a = if c then 1 else 0 := by
  split
  · simp
  · rfl

lemma targetBounds_mem_iff (rule : RuleNode) (i : Int) :
    (((targetBounds rule).1 ≤ i ∧ i ≤ (targetBounds rule).2) ↔
      (if rule.attr "zeroAsTen" = some "true" then 1 ≤ i ∧ i ≤ 10 else 0 ≤ i ∧ i ≤ 9)) := by
  unfold targetBounds
  split <;> simp

lemma missedNumbersFlag_iff (rule : RuleNode) :
    (missedNumbersFlag rule = true ↔
      ∃ i : Int, ((targetBounds rule).1 ≤ i ∧ i ≤ (targetBounds rule).2) ∧
        ¬ ∃ r ∈ caseRanges rule, r.1 ≤ i ∧ i ≤ r.2) := by
  unfold missedNumbersFlag
  rw [List.any_eq_true]
  constructor
  · rintro ⟨i, hi, hnc⟩
    rw [mem_intRange] at hi
    refine ⟨i, hi, ?_⟩
    intro hc
    have hmem : i ∈ (scanCases rule.children).coverage := (mem_scanCases_coverage _ _).2 hc
    rw [(contains_iff_mem_int _ _).2 hmem] at hnc
    simp at hnc
  · rintro ⟨i, hi, hnc⟩
    refine ⟨i, mem_intRange.2 hi, ?_⟩
    have hni : i ∉ (scanCases rule.children).coverage :=
      fun hmem => hnc ((mem_scanCases_coverage _ _).1 hmem)
    have hcf : (scanCases rule.children).coverage.contains i = false := by
      cases hb : (scanCases rule.children).coverage.contains i with
      | false => rfl
      | true => exact absurd ((contains_iff_mem_int _ _).1 hb) hni
    rw [hcf]
    rfl

lemma missed_mem_iff (ctx : Ctx) (rule : RuleNode)
    (h0 : ¬((scanCases rule.children).nCasesFound = 0)) :
    (addError ctx rule "Missed numbers" ∈ randomTable ctx rule ↔
      missedNumbersFlag rule = true) := by
  rw [randomTable_run, if_neg h0]
  constructor
  · intro hmem
    rcases List.mem_append.1 hmem with h | h
    · by_contra hf
      rw [if_neg hf] at h
      simp at h
    · exact absurd (mem_ite_singleton h) (missed_ne_overlapped ctx rule)
  · intro hflag
    exact List.mem_append.2 (Or.inl (by rw [if_pos hflag]; simp))

/-! ## The claims -/

/-- C1 (code bug): the claim, like the spec, says that validating a
"randomTable" rule without a text-en attribute appends the error
'Link to random table not found' exactly when the current section's XML has
no link to a random table at the rule's index.  In the source the guard is
`if (!$random)` where `$random` is the result of jQuery `.find`: a jQuery
object is always truthy, so the branch is dead and the error is never
appended, for any context, rule, or section content (compare
`validateSectionChoiceAttribute`, which correctly tests `.length == 0`). -/
theorem C1_link_error_never_appended (ctx : Ctx) (rule : RuleNode) :
    (randomTable ctx rule).count (addError ctx rule "Link to random table not found") = 0 := by
  rw [randomTable_run]
  split
  · rfl
  · rw [List.count_append,
      count_ite_singleton_of_ne (fun h => link_ne_missed ctx rule h.symm),
      count_ite_singleton_of_ne (fun h => link_ne_overlapped ctx rule h.symm)]

/-- C2 (counterexample): the claim says every string in the accumulated
error list, after any sequence of validateBook or validateSection calls, has
the shape `Section <id>, rule <tagName>: <message>`.  One validateBook call
with the schema not yet downloaded leaves the error
'The XSD for mechanics validation has not been downloaded' in the list, and
that string does not have the shape (it does not start with "Section "). -/
theorem C2_counterexample :
    ∃ v : BookValidator,
      BookValidator.validateBookFuel extNoXsd (BookValidator.mk mTrivial bA []) 1 = some v ∧
      ∃ e ∈ v.errors, ¬ hasErrorShape e := by
  refine ⟨BookValidator.mk mTrivial bA
      ["The XSD for mechanics validation has not been downloaded"], rfl,
    "The XSD for mechanics validation has not been downloaded", by decide, ?_⟩
  intro hs
  exact absurd (hasErrorShape_head _ hs) (by decide)

/-- The name-based dispatch leaks raw strings into a plain validateSection
run: a rule element named `validateXml` invokes schema validation from
inside the tree, and with the schema not yet downloaded the raw, unshaped
string 'The XSD for mechanics validation has not been downloaded' is
accumulated by `validateSection` itself. -/
theorem validateSection_dispatch_raw_error :
    "The XSD for mechanics validation has not been downloaded" ∈
      (BookValidator.validateSection extNoXsd (BookValidator.mk mDispatch bA []) "s1").errors ∧
    ¬ hasErrorShape "The XSD for mechanics validation has not been downloaded" := by
  refine ⟨by decide, ?_⟩
  intro hs
  exact absurd (hasErrorShape_head _ hs) (by decide)

/-- C2 (amended): when no element of the section's rule tree is named after
a member whose dispatch pushes raw strings (`validateXml`, `validateBook` —
see `rawPushingMemberNames`), every string accumulated by a
`validateSection` call has the shape `Section <id>, rule <tagName>:
<message>`, because every push then goes through `addError`.  Without that
proviso the shape can fail even for `validateSection`
(see `validateSection_dispatch_raw_error`), and a `validateBook` call
additionally pushes `validateXml`'s raw schema strings outside the shape
(see `C2_counterexample`). -/
theorem C2_validateSection_errors_shape (ext : XsdState) (m : Mechanics) (b : Book)
    (errs : List String) (sectionId e : String)
    (hsafe : sectionTreeShapeSafe m sectionId = true)
    (he : e ∈ (BookValidator.validateSection ext (BookValidator.mk m b errs) sectionId).errors) :
    hasErrorShape e :=
  validateSectionInternal_shape ext m b sectionId hsafe e he

/-- C2 witness: a concrete validateSection run on a shape-safe tree produces
an error of the stated shape. -/
theorem C2_witness :
    hasErrorShape
      "Section s1, rule pick: Must to have a \"objectId\" or \"class\" attribute, and only one" :=
  C2_validateSection_errors_shape extNoXsd mShape bA [] "s1" _ (by decide) (by decide)

/-- C3 (counterexample): the claim says a "pick" rule appends zero errors
iff exactly one of objectId/class is present and class implies count.  A
pick rule with `objectId="foo"` (present, class absent) satisfies the
claim's condition, yet validating it appends
'Object id foo not found' because the id does not resolve in the object
table. -/
theorem C3_counterexample :
    pickClaimCondition pickRuleA = true ∧ ¬(pick ctxA pickRuleA = []) := by
  decide

/-- C3 (amended): a "pick" rule appends zero errors iff either its objectId
attribute is present with a non-empty value that resolves in the mechanics
object table and its class attribute is absent or empty, or its objectId
attribute is absent or empty and both its class and count attributes are
present and non-empty. -/
theorem C3_pick_no_errors_iff (ctx : Ctx) (rule : RuleNode) :
    (pick ctx rule = [] ↔
      ((∃ v, rule.attr "objectId" = some v ∧ ¬(v = "") ∧ ctx.mechanics.getObject v = true) ∧
        jsTruthy (rule.attr "class") = false) ∨
      (jsTruthy (rule.attr "objectId") = false ∧ jsTruthy (rule.attr "class") = true ∧
        jsTruthy (rule.attr "count") = true)) := by
  unfold pick validateObjectIdsAttribute getPropertyValueAsArray validateNumericExpression
  dsimp only
  rcases ha : rule.attr "objectId" with _ | v
  · cases hcl : jsTruthy (rule.attr "class") <;> cases hct : jsTruthy (rule.attr "count") <;>
      simp [ha, hcl, hct, jsTruthy]
  · by_cases hv : v = ""
    · subst hv
      cases hcl : jsTruthy (rule.attr "class") <;> cases hct : jsTruthy (rule.attr "count") <;>
        simp [ha, hcl, hct, jsTruthy]
    · cases hg : ctx.mechanics.getObject v <;>
        cases hcl : jsTruthy (rule.attr "class") <;>
        cases hct : jsTruthy (rule.attr "count") <;>
        simp [ha, hv, hg, hcl, hct, jsTruthy]

/-- C4: for a "randomTable" rule with at least one "case" child, the error
'Missed numbers' is appended iff some integer of the target range — `[1,10]`
when `zeroAsTen="true"`, `[0,9]` otherwise — is covered by none of the valid
(non-inverted) ranges of its immediate "case" children. -/
theorem C4_missed_numbers (ctx : Ctx) (rule : RuleNode)
    (hcase : ¬(rule.children.countP (fun c => c.nodeName == "case") = 0)) :
    (addError ctx rule "Missed numbers" ∈ randomTable ctx rule ↔
      ∃ i : Int,
        (if rule.attr "zeroAsTen" = some "true" then 1 ≤ i ∧ i ≤ 10 else 0 ≤ i ∧ i ≤ 9) ∧
        ¬ ∃ r ∈ caseRanges rule, r.1 ≤ i ∧ i ≤ r.2) := by
  rw [missed_mem_iff ctx rule (by rw [scanCases_nCases]; exact hcase), missedNumbersFlag_iff]
  constructor
  · rintro ⟨i, hb, hn⟩
    exact ⟨i, (targetBounds_mem_iff rule i).1 hb, hn⟩
  · rintro ⟨i, hb, hn⟩
    exact ⟨i, (targetBounds_mem_iff rule i).2 hb, hn⟩

/-- C4 witness: a randomTable whose single case covers only 0..5 misses 6
and gets the 'Missed numbers' error. -/
theorem C4_witness :
    addError ctxA rtRuleMissed "Missed numbers" ∈ randomTable ctxA rtRuleMissed :=
  (C4_missed_numbers ctxA rtRuleMissed (by decide)).mpr ⟨6, by decide, by decide⟩

/-- C5: the error 'Overlapped numbers' is appended exactly once when some
integer is covered by the valid ranges of two distinct immediate "case"
children (two entries of `caseRanges`, i.e. a two-element sublist), however
many overlapping pairs or integers there are, and is not appended when no
integer is covered twice. -/
theorem C5_overlapped_numbers (ctx : Ctx) (rule : RuleNode) :
    (overlappedCases rule →
        (randomTable ctx rule).count (addError ctx rule "Overlapped numbers") = 1) ∧
    (¬ overlappedCases rule →
        (randomTable ctx rule).count (addError ctx rule "Overlapped numbers") = 0) := by
  have hov := scanCases_overlapped rule.children
  constructor
  · intro h
    have hne : ¬((scanCases rule.children).nCasesFound = 0) := by
      intro h0
      rw [scanCases_nCases] at h0
      obtain ⟨r1, r2, hsub, _⟩ := h
      rw [show caseRanges rule = validCaseRanges rule.children from rfl,
        validCaseRanges_eq_nil_of_no_case _ h0] at hsub
      simp at hsub
    rw [randomTable_run, if_neg hne, List.count_append,
      count_ite_singleton_of_ne (fun h2 => missed_ne_overlapped ctx rule h2),
      count_ite_singleton_self, if_pos (hov.2 h)]
  · intro h
    by_cases hne : (scanCases rule.children).nCasesFound = 0
    · rw [randomTable_run, if_pos hne]
      rfl
    · rw [randomTable_run, if_neg hne, List.count_append,
        count_ite_singleton_of_ne (fun h2 => missed_ne_overlapped ctx rule h2),
        count_ite_singleton_self, if_neg (fun hx => h (hov.1 hx))]

/-- C5 witness: ranges 1..5 and 3..7 overlap, and the error is appended
exactly once. -/
theorem C5_witness :
    (randomTable ctxA rtRuleOverlap).count
      (addError ctxA rtRuleOverlap "Overlapped numbers") = 1 :=
  (C5_overlapped_numbers ctxA rtRuleOverlap).1 ⟨(1, 5), (3, 7), by decide, 3, by decide, by decide⟩

/-- C6: a "randomTable" rule with no immediate "case" children appends
neither 'Missed numbers' nor 'Overlapped numbers', whatever its attributes
are. -/
theorem C6_no_cases_no_coverage_errors (ctx : Ctx) (rule : RuleNode)
    (hcase : rule.children.countP (fun c => c.nodeName == "case") = 0) :
    (randomTable ctx rule).count (addError ctx rule "Missed numbers") = 0 ∧
    (randomTable ctx rule).count (addError ctx rule "Overlapped numbers") = 0 := by
  have h0 : (scanCases rule.children).nCasesFound = 0 := by
    rw [scanCases_nCases]
    exact hcase
  rw [randomTable_run, if_pos h0]
  exact ⟨rfl, rfl⟩

/-- C6 witness: a caseless randomTable with attributes set emits no coverage
errors. -/
theorem C6_witness :
    (randomTable ctxA rtRuleNoCases).count (addError ctxA rtRuleNoCases "Missed numbers") = 0 ∧
    (randomTable ctxA rtRuleNoCases).count
      (addError ctxA rtRuleNoCases "Overlapped numbers") = 0 :=
  C6_no_cases_no_coverage_errors ctxA rtRuleNoCases (by decide)

/-- C7: both validateSection and validateBook reset the error list before
validating, so the errors observed after a call are a function of the
mechanics, the book and the call's argument only — errors accumulated by any
prior call never appear in the result of a later call. -/
theorem C7_error_list_reset (m : Mechanics) (b : Book) (e1 e2 : List String)
    (sectionId : String) (ext : XsdState) (fuel : Nat) :
    (BookValidator.validateSection ext (BookValidator.mk m b e1) sectionId).errors =
        validateSectionInternal ext m b sectionId ∧
    (BookValidator.validateSection ext (BookValidator.mk m b e1) sectionId).errors =
        (BookValidator.validateSection ext (BookValidator.mk m b e2) sectionId).errors ∧
    (BookValidator.validateBookFuel ext (BookValidator.mk m b e1) fuel).map
        BookValidator.errors =
      (BookValidator.validateBookFuel ext (BookValidator.mk m b e2) fuel).map
        BookValidator.errors := by
  refine ⟨rfl, rfl, ?_⟩
  unfold BookValidator.validateBookFuel
  rcases h : validateBookLoop ext m b fuel Book.INITIAL_SECTION with _ | errs <;> simp [h]

/-- C8: when the XSD has not been downloaded, validateXml pushes exactly the
one error 'The XSD for mechanics validation has not been downloaded',
whatever the external validator would answer (it is not invoked), and a
validateBook run still performs rule-level validation, appending the
traversal's section errors after that one error. -/
theorem C8_schema_not_loaded (f : String → String → List String → String)
    (m : Mechanics) (b : Book) (e : List String) (fuel : Nat) (sectionErrors : List String)
    (h : validateBookLoop ⟨none, f⟩ m b fuel Book.INITIAL_SECTION = some sectionErrors) :
    validateXml ⟨none, f⟩ m b =
        ["The XSD for mechanics validation has not been downloaded"] ∧
    BookValidator.validateBookFuel ⟨none, f⟩ (BookValidator.mk m b e) fuel =
      some (BookValidator.mk m b
        ("The XSD for mechanics validation has not been downloaded" :: sectionErrors)) := by
  refine ⟨rfl, ?_⟩
  unfold BookValidator.validateBookFuel
  simp [h, validateXml]

/-- C8 witness: with the schema missing, a whole-book run over a one-section
chain records the schema error followed by the section's rule error. -/
theorem C8_witness :
    validateXml extNoXsd mChain bChain =
        ["The XSD for mechanics validation has not been downloaded"] ∧
    BookValidator.validateBookFuel extNoXsd (BookValidator.mk mChain bChain []) 2 =
      some (BookValidator.mk mChain bChain
        ["The XSD for mechanics validation has not been downloaded",
         "Section sect1, rule pick: Must to have a \"objectId\" or \"class\" attribute, and only one"]) :=
  C8_schema_not_loaded (fun _ _ _ => "") mChain bChain [] 2 _ (by decide)

/-- C9: whenever the validateBook traversal terminates, the sections it
validated are exactly those the visited list records, the mechanics-defined
last section id is not among them (the loop exits before validating it), and
the accumulated rule errors are exactly the concatenation of the visited
sections' errors — so the last section's rule tree contributes no errors. -/
theorem C9_last_section_not_validated (ext : XsdState) (m : Mechanics) (b : Book) (fuel : Nat)
    (errs : List String)
    (h : validateBookLoop ext m b fuel Book.INITIAL_SECTION = some errs) :
    ∃ ids, validateBookLoopVisited m b fuel Book.INITIAL_SECTION = some ids ∧
      m.getLastSectionId ∉ ids ∧ errs = ids.flatMap (validateSectionInternal ext m b) :=
  validateBookLoop_visited fuel ext m b Book.INITIAL_SECTION errs h

/-- C9 witness: over the one-section chain the traversal visits only the
initial section; "end" is never validated. -/
theorem C9_witness :
    ∃ ids, validateBookLoopVisited mChain bChain 2 Book.INITIAL_SECTION = some ids ∧
      mChain.getLastSectionId ∉ ids ∧
      ["Section sect1, rule pick: Must to have a \"objectId\" or \"class\" attribute, and only one"] =
        ids.flatMap (validateSectionInternal extNoXsd mChain bChain) :=
  C9_last_section_not_validated extNoXsd mChain bChain 2 _ (by decide)

/-- C10: the validateBook traversal terminates (some fuel suffices) iff
iterating the next-section link from the initial section reaches the
mechanics-defined last section id in finitely many steps; otherwise the
source's while loop never returns (no fuel makes the loop finish). -/
theorem C10_validateBook_terminates_iff (ext : XsdState) (m : Mechanics) (b : Book)
    (e : List String) :
    ((∃ fuel, (BookValidator.validateBookFuel ext (BookValidator.mk m b e) fuel).isSome = true) ↔
      ∃ n, iterNext b n Book.INITIAL_SECTION = m.getLastSectionId) := by
  constructor
  · rintro ⟨fuel, hf⟩
    rw [validateBookFuel_isSome] at hf
    obtain ⟨n, _, hl⟩ := (validateBookLoop_isSome_iff fuel _ _ _ _).1 hf
    exact ⟨n, hl⟩
  · rintro ⟨n, hl⟩
    refine ⟨n + 1, ?_⟩
    rw [validateBookFuel_isSome]
    exact (validateBookLoop_isSome_iff (n + 1) _ _ _ _).2 ⟨n, by omega, hl⟩

end Kai
